import Mathlib

/-!
Verification of the pyjags multi-chain sampling orchestration core
(`pyjags/model.py`, `pyjags/progressbar.py`) via a shallow embedding.

Conventions of the embedding:
* Python floats are modelled as exact rationals (`ℚ`); the claims settled
  here are insensitive to rounding of binary64 arithmetic.
* Python exceptions are modelled with an explicit error type `PyExc` and
  `Except` results; the Python class hierarchy relevant to the claims
  (KeyError and IndexError are distinct subclasses of LookupError) is
  reflected by predicates on `PyExc`.
* Python `int(x)` truncates toward zero; this is `pyInt`.
* Generators are modelled as the (finite) list of their yields; the
  monotonic timer of `const_time_partition` is an arbitrary function
  `ℕ → ℚ` giving the value returned by the k-th call of `timer()`
  (call 0 is the `start = timer()` call).
-/

/-- Python exceptions distinguished by the claims. -/
inductive PyExc
  | valueError
  | keyError
  | indexError
  | runtimeError
  deriving DecidableEq, Repr

/-- Membership of a raised exception in the IndexError class: in Python only
IndexError itself (KeyError is a sibling, not a subclass). -/
def PyExc.isIndexErrorClass : PyExc → Bool
  | .indexError => true
  | _ => false

/-- Membership in the LookupError class: both KeyError and IndexError. -/
def PyExc.isLookupErrorClass : PyExc → Bool
  | .keyError => true
  | .indexError => true
  | _ => false

/-- Python `int()` applied to a rational: truncation toward zero. -/
def pyInt (q : ℚ) : ℤ := if q < 0 then ⌈q⌉ else ⌊q⌋

/-!  ## StepPartitioner: `const_time_partition` (progressbar.py lines 34-78)

```
start = timer()
left = iterations
next = 1
while left > 0:
    yield next
    elapsed = timer() - start
    left -= next
    done = iterations - left
    next = int(period * done / elapsed) if elapsed > 0 else 2 * next
    if next < 1:
        next = 1
    if next > left:
        next = left
```
The loop body is `ctpGo`; `k` counts calls to `timer`.  The two clamping
`if` statements are `min left (max 1 raw)`.  The loop always keeps
`1 ≤ next ≤ left` on entry while `left > 0`; for termination on arbitrary
(unreachable) arguments we use the measure `2*left + 1` when `next = 0`.
-/

def ctpGo (iterations : ℕ) (period : ℚ) (timer : ℕ → ℚ) (start : ℚ) :
    ℕ → ℕ → ℕ → List ℕ
  | left, next, k =>
    if h : left = 0 then []
    else
      let elapsed := timer k - start
      let left' := left - next
      let done := iterations - left'
      let raw : ℤ := if 0 < elapsed then pyInt (period * done / elapsed) else 2 * next
      let next' := min left' (max 1 raw.toNat)
      next :: ctpGo iterations period timer start left' next' (k + 1)
  termination_by left next _ => 2 * left + 1 - min 1 next
  decreasing_by omega

/-- `const_time_partition(iterations, period, timer)` as the list of its
yields; `timer 0` is the initial `start = timer()` call. -/
def const_time_partition (iterations : ℕ) (period : ℚ) (timer : ℕ → ℚ) : List ℕ :=
  ctpGo iterations period timer (timer 0) iterations 1 1

/-!  ## DataMarshaller: `dict_to_jags` / `dict_from_jags` (model.py lines 26-64)

Arrays are lists of rationals; a numpy MaskedArray is `PyVal.marr data mask`.
`JAGS_NA = -sys.float_info.max*(1-1e-15)` with `sys.float_info.max =
2^1024 - 2^971`; binary64 rounding of the product is abstracted to exact
rational arithmetic (the claims depend only on this being one fixed value).
-/

def JAGS_NA : ℚ := -((2^1024 - 2^971) * (1 - 1/10^15))

/-- A Python value held in a data dictionary: a plain array or a masked
array. `np.atleast_1d` coercion is implicit (inputs are already lists). -/
inductive PyVal
  | arr (data : List ℚ)
  | marr (data : List ℚ) (mask : List Bool)
  deriving DecidableEq, Repr

def PyVal.dataOf : PyVal → List ℚ
  | .arr d => d
  | .marr d _ => d

/-- `np.ma.is_masked(v)`: true only for a masked array with at least one
actually-masked entry. -/
def PyVal.is_masked : PyVal → Bool
  | .arr _ => false
  | .marr _ m => m.any id

/-- `np.ma.filled(np.ma.array(data=v, fill_value=JAGS_NA))`: replace masked
positions with the sentinel, producing a plain array. -/
def PyVal.filled : PyVal → List ℚ
  | .arr d => d
  | .marr d m => (d.zip m).map (fun p => if p.2 then JAGS_NA else p.1)

def PyVal.size : PyVal → ℕ
  | .arr d => d.length
  | .marr d _ => d.length

/-- Mask consistency maintained by numpy: mask and data have equal length. -/
def PyVal.wf : PyVal → Prop
  | .arr _ => True
  | .marr d m => m.length = d.length

def PyVal.maskAt : PyVal → ℕ → Bool
  | .arr _, _ => false
  | .marr _ m, i => m.getD i false

def PyVal.dataAt (v : PyVal) (i : ℕ) : ℚ := v.dataOf.getD i 0

/-- Per-entry body of `dict_to_jags`: fill masked arrays with the sentinel,
keep plain arrays unchanged. -/
def encodeVal (v : PyVal) : PyVal :=
  if v.is_masked then .arr v.filled else v

/-- `dict_to_jags` (model.py lines 29-48): convert every entry, dropping
those whose array is empty. -/
def dict_to_jags (src : List (String × PyVal)) : List (String × PyVal) :=
  src.filterMap (fun kv =>
    let v := encodeVal kv.2
    if v.size = 0 then none else some (kv.1, v))

/-- Per-entry body of `dict_from_jags`: `mask = v == JAGS_NA`; if any
position matches, return a masked array, else the value unchanged. -/
def decodeVal (v : PyVal) : PyVal :=
  let mask := v.dataOf.map (fun x => decide (x = JAGS_NA))
  if mask.any id then .marr v.dataOf mask else v

/-- `dict_from_jags` (model.py lines 51-64). -/
def dict_from_jags (src : List (String × PyVal)) : List (String × PyVal) :=
  src.map (fun kv => (kv.1, decodeVal kv.2))

/-- The relation between a source entry and its decoded round-trip image:
same key, same size, identical mask positions, identical unmasked values. -/
def RoundTripRel (kv kv' : String × PyVal) : Prop :=
  kv'.1 = kv.1 ∧ kv'.2.size = kv.2.size ∧
  (∀ i, kv'.2.maskAt i = kv.2.maskAt i) ∧
  (∀ i, i < kv.2.size → kv.2.maskAt i = false → kv'.2.dataAt i = kv.2.dataAt i)

/-!  ## Model source resolution: `model_path` (model.py lines 67-83)

```
if file:
    yield file
elif code:
    ... write code to a NamedTemporaryFile, yield its name ...
else:
    raise ValueError('Either model name or model text must be provided.')
```
Python truthiness on an optional string: `None` and the empty string are
falsy.  The yielded value is `fromFile path` in the first branch and
`fromTemp contents` (the temporary file holding the code) in the second.
-/

/-- Truthiness of an optional Python string. -/
def pyTruthyStr : Option String → Bool
  | none => false
  | some s => !s.isEmpty

/-- What `model_path` yields: the given path, or a temporary file holding
the model code. -/
inductive ModelSource
  | fromFile (path : String)
  | fromTemp (contents : String)
  deriving DecidableEq, Repr

def model_path (file code : Option String) : Except PyExc ModelSource :=
  if pyTruthyStr file then .ok (.fromFile (file.getD ""))
  else if pyTruthyStr code then .ok (.fromTemp (code.getD ""))
  else .error .valueError

/-!  ## ChainRouter: `MultiConsole` (model.py lines 86-155)

```
outer_chain = 1
while chains > 0:
    console = Console()
    console_chains = min(chains_per_thread, chains)
    self.consoles.append(console)
    self.chains_per_console.append(console_chains)
    for inner_chain in range(1, console_chains+1):
        self.chains[outer_chain] = (console, inner_chain)
        outer_chain += 1
    chains -= chains_per_thread
```
Consoles are identified by their creation index.  The `self.chains` dict is
an association list keyed by the outer chain number.  The source loop never
terminates when `chains_per_thread = 0`; the extra guard returning `[]`
marks that (unreachable) divergence, and the theorems below assume
`1 ≤ chains_per_thread`.
-/

/-- The `chains_per_console` list built by the construction loop. -/
def buildConsoles (cpt : ℕ) : ℕ → List ℕ
  | chains =>
    if h1 : chains = 0 then []
    else if h2 : cpt = 0 then []
    else min cpt chains :: buildConsoles cpt (chains - cpt)
  termination_by chains => chains
  decreasing_by omega

/-- The `self.chains` dict entries `(outer_chain, (console index, inner_chain))`
in insertion order; `cIdx` is the index of the console created in this round
and `outer` the next outer chain number. -/
def buildRouting (cpt : ℕ) : ℕ → ℕ → ℕ → List (ℕ × ℕ × ℕ)
  | chains, cIdx, outer =>
    if h1 : chains = 0 then []
    else if h2 : cpt = 0 then []
    else
      (List.range (min cpt chains)).map (fun i => (outer + i, cIdx, i + 1)) ++
        buildRouting cpt (chains - cpt) (cIdx + 1) (outer + min cpt chains)
  termination_by chains => chains
  decreasing_by omega

structure MultiConsole where
  chains_per_console : List ℕ
  chains : List (ℕ × ℕ × ℕ)
  deriving DecidableEq, Repr

/-- `MultiConsole.__init__(chains, chains_per_thread)`. -/
def MultiConsole.init (chains cpt : ℕ) : MultiConsole :=
  { chains_per_console := buildConsoles cpt chains
    chains := buildRouting cpt chains 0 1 }

/-- The common routing step of `setRNGname`, `setParameters` and `dumpState`:
`console, chain = self.chains[chain]` — a dict lookup, raising KeyError when
the outer chain number is not a key. -/
def MultiConsole.route (m : MultiConsole) (chain : ℕ) : Except PyExc (ℕ × ℕ) :=
  match m.chains.lookup chain with
  | some v => .ok v
  | none => .error .keyError

/-!  ## Aggregating reads: `MultiConsole.dumpMonitors` (model.py lines 135-138)

```
ds = [c.dumpMonitors(monitor_type, flat) for c in self.consoles]
return {k: np.concatenate([d[k] for d in ds], axis=-1)
        for k in set(k for d in ds for k in d.keys())}
```
A sample tensor of shape `(dim_1, ..., dim_n, iterations, chains)` is
represented along its chains axis: `Tensor := List Slice` where each
`Slice := List ℚ` holds one chain's `(dims, iterations)` block, so that
`np.concatenate(..., axis=-1)` is list concatenation (`join`) of the
per-instance slice lists.  Each per-instance dump is an association list
from variable name to tensor; `ds` is listed in `self.consoles` order, the
order in which instances were created.  `d[k]` on a missing key raises
KeyError; the aggregate is given per key `k` (the Python dict comprehension
iterates an unordered set of keys).
-/

def Tensor := List (List ℚ)

/-- The aggregated value of `dumpMonitors` at one variable name `k`:
`none` when `k` is in no instance dump (the comprehension does not visit it),
KeyError when some instance lacks `k` (`d[k]` raises), otherwise the
concatenation of the per-instance tensors in `ds` order. -/
def dumpMonitorsAt (ds : List (List (String × Tensor))) (k : String) :
    Option (Except PyExc Tensor) :=
  if ds.any (fun d => (d.lookup k).isSome) then
    some (if ds.all (fun d => (d.lookup k).isSome)
          then .ok (List.flatten (ds.map (fun d => (d.lookup k).getD [])))
          else .error .keyError)
  else none

/-!  ## Monitor lifecycle in `Model.sample` (model.py lines 388-401)

```
monitored = []
try:
    for name in vars:
        self.console.setMonitor(name, thin, monitor_type)
        monitored.append(name)
    self._update(iterations, 'sampling: ')
    samples = self.console.dumpMonitors(monitor_type, False)
    samples = dict_from_jags(samples)
finally:
    for name in monitored:
        self.console.clearMonitor(name, monitor_type)
return samples
```
The engine is abstracted by an oracle deciding which operations raise: any
of `setMonitor` (per name), the update batches, or the dump may fail.  The
tracked console state is the list of active monitor subscriptions for the
call's monitor type: a successful `setMonitor` appends one, `clearMonitor`
(assumed not to raise, per the engine contract) removes one.
-/

structure SampleOracle where
  setMonitorFails : String → Bool
  updateFails : Bool
  dumpFails : Bool

/-- The `for name in vars:` monitor-subscription loop; returns the
`monitored` list, the console state, and whether it completed. -/
def setMonitorLoop (o : SampleOracle) :
    List String → List String → List String → List String × List String × Bool
  | [], monitored, st => (monitored, st, true)
  | n :: rest, monitored, st =>
    if o.setMonitorFails n then (monitored, st, false)
    else setMonitorLoop o rest (monitored ++ [n]) (st ++ [n])

/-- The `finally` block: `for name in monitored: clearMonitor(name, ...)`. -/
def clearMonitors (monitored st : List String) : List String :=
  monitored.foldl (fun s n => s.erase n) st

/-- `Model.sample` over the oracle: the call result (monitored names on
success, or the propagated exception) with the final console state. -/
def sampleRun (o : SampleOracle) (vars : List String) (st : List String) :
    Except PyExc (List String) × List String :=
  match setMonitorLoop o vars [] st with
  | (monitored, st1, ok) =>
    if !ok then (.error .runtimeError, clearMonitors monitored st1)
    else if o.updateFails then (.error .runtimeError, clearMonitors monitored st1)
    else if o.dumpFails then (.error .runtimeError, clearMonitors monitored st1)
    else (.ok monitored, clearMonitors monitored st1)

/-!  ## Initial values: `Model._init_parameters` (model.py lines 284-318)

```
if init is None:
    init = {}
if isinstance(init, collections.Mapping):
    init = [init] * self.chains
elif not isinstance(init, collections.Sequence):
    raise ValueError('Init should be a sequence or a dictionary.')
if len(init) != self.chains:
    raise ValueError('Length of init sequence should equal the number of chains.')
if self.use_threads:
    rngs = Console.parallel_rngs('lecuyer::RngStream', self.chains)
else:
    rngs = [{'.RNG.name': None, '.RNG.seed': None}] * self.chains
for data, rng, chain in zip(init, rngs, range(1, self.chains + 1)):
    data = dict(data)
    rng_name = data.pop('.RNG.name', None)
    if self.use_threads and rng_name is None:
        rng_name = rng['.RNG.name']
        data['.RNG.state'] = rng['.RNG.state']
    if rng_name is not None:
        self.console.setRNGname(rng_name, chain)
    data = dict_to_jags(data)
    unused = set(data.keys()) ... if unused: raise ValueError(...)
    self.console.setParameters(data, chain)
```
An init dictionary is split into its optional `.RNG.name` entry and the
remaining entries; `Console.parallel_rngs` is external, so the drawn
assignments are a parameter.  Engine interactions are recorded as a trace of
`EngineCall`s; a raised exception is the `Option PyExc` component.  The
function starts no worker thread (threads are created only later, by
`_update_parallel` during adaptation or sampling).
-/

/-- An init dictionary: the `.RNG.name` entry, if present, and the rest. -/
structure InitMap where
  rngName : Option String
  entries : List (String × PyVal)
  deriving DecidableEq, Repr

/-- The `init` argument of the Model constructor as `_init_parameters`
classifies it: omitted, a single mapping, a sequence of mappings, or
anything else. -/
inductive InitArg
  | noneArg
  | mapping (m : InitMap)
  | sequence (l : List InitMap)
  | other

/-- Engine interactions performed by the per-chain loop. -/
inductive EngineCall
  | setRNG (name : String) (chain : ℕ)
  | setParams (chain : ℕ)
  deriving DecidableEq, Repr

/-- Keys excluded from the unused-variables check. -/
def rngKeys : List String := [".RNG.seed", ".RNG.state"]

/-- The `for data, rng, chain in zip(init, rngs, range(1, chains+1))` loop;
returns the accumulated engine-call trace and the raised exception, if any. -/
def chainLoop (useThreads : Bool) (varNames : List String) :
    List (InitMap × (Option String × PyVal)) → ℕ → List EngineCall →
      List EngineCall × Option PyExc
  | [], _, calls => (calls, none)
  | (data, rng) :: rest, chain, calls =>
    let resolved :=
      if useThreads && data.rngName.isNone then
        (rng.1, data.entries ++ [(".RNG.state", rng.2)])
      else (data.rngName, data.entries)
    let calls1 := match resolved.1 with
      | some n => calls ++ [EngineCall.setRNG n chain]
      | none => calls
    let jd := dict_to_jags resolved.2
    let unused := (jd.map Prod.fst).filter
      (fun k => !(varNames.contains k) && !(rngKeys.contains k))
    if unused = [] then
      chainLoop useThreads varNames rest (chain + 1)
        (calls1 ++ [EngineCall.setParams chain])
    else (calls1, some .valueError)

/-- The common tail of `_init_parameters` once `init` has been coerced to a
per-chain list: the length check followed by the per-chain loop. -/
def initSeqRun (chains : ℕ) (useThreads : Bool) (varNames : List String)
    (rngs : List (Option String × PyVal)) (l : List InitMap) :
    List EngineCall × Option PyExc :=
  if l.length ≠ chains then ([], some .valueError)
  else chainLoop useThreads varNames (l.zip rngs) 1 []

/-- `Model._init_parameters`. `rngsParam` stands for the stream-split
assignments returned by the external `Console.parallel_rngs`; when threads
are not in use the code builds `[{'.RNG.name': None, ...}] * chains`. -/
def init_parameters (chains : ℕ) (useThreads : Bool) (varNames : List String)
    (rngsParam : List (Option String × PyVal)) (init : InitArg) :
    List EngineCall × Option PyExc :=
  match init with
  | .noneArg => initSeqRun chains useThreads varNames
      (if useThreads then rngsParam
       else List.replicate chains (none, PyVal.arr []))
      (List.replicate chains ⟨none, []⟩)
  | .mapping m => initSeqRun chains useThreads varNames
      (if useThreads then rngsParam
       else List.replicate chains (none, PyVal.arr []))
      (List.replicate chains m)
  | .sequence l => initSeqRun chains useThreads varNames
      (if useThreads then rngsParam
       else List.replicate chains (none, PyVal.arr []))
      l
  | .other => ([], some .valueError)

/-!  ## Threading dispatch (model.py lines 255-262 and 320-327)

```
self.use_threads = self.threads > 1 and chains_per_thread < self.chains
if self.use_threads:
    self.console = MultiConsole(self.chains, chains_per_thread)
else:
    self.console = Console()
...
def _update(self, iterations, header):
    if self.use_threads:
        method = self._update_parallel
    else:
        method = self._update_sequential
```
`_update_sequential` runs every batch in a plain loop on the calling thread;
`_update_parallel` is the thread-pool path.
-/

def use_threads (threads chains chains_per_thread : ℕ) : Bool :=
  decide (1 < threads) && decide (chains_per_thread < chains)

/-- The console owned by the Model: one engine instance owning all chains,
or the sharded multi-instance router. -/
inductive ConsoleChoice
  | single (chains : ℕ)
  | multi (m : MultiConsole)
  deriving DecidableEq, Repr

def consoleFor (threads chains chains_per_thread : ℕ) : ConsoleChoice :=
  if use_threads threads chains chains_per_thread then
    .multi (MultiConsole.init chains chains_per_thread)
  else .single chains

inductive UpdateMethod
  | sequential
  | parallel
  deriving DecidableEq, Repr

/-- The batch-execution path chosen by `_update`. -/
def updateMethodFor (threads chains chains_per_thread : ℕ) : UpdateMethod :=
  if use_threads threads chains chains_per_thread then .parallel else .sequential

/-- Loop invariant of `const_time_partition`: while the loop keeps
`1 ≤ next ≤ left` on entry, the yields sum to `left` and are all positive. -/
theorem ctpGo_sum_pos (it : ℕ) (p : ℚ) (t : ℕ → ℚ) (s : ℚ) :
    ∀ left next k, (0 < left → 1 ≤ next) → next ≤ left →
      (ctpGo it p t s left next k).sum = left ∧
      ∀ b ∈ ctpGo it p t s left next k, 1 ≤ b := by
  intro left
  induction left using Nat.strong_induction_on with
  | _ left ih =>
    intro next k h1 h2
    rw [ctpGo]
    split
    · rename_i hl
      subst hl
      simp
    · rename_i hl
      have hl' : 0 < left := Nat.pos_of_ne_zero hl
      have hnext : 1 ≤ next := h1 hl'
      have hlt : left - next < left := Nat.sub_lt hl' hnext
      have hrec := ih (left - next) hlt
        (min (left - next)
          (max 1 (if 0 < t k - s then
            pyInt (p * ↑(it - (left - next)) / (t k - s)) else 2 * ↑next).toNat))
        (k + 1)
        (fun hpos => le_min hpos (le_max_left _ _))
        (min_le_left _ _)
      refine ⟨?_, ?_⟩
      · simp only [List.sum_cons, hrec.1]
        omega
      · intro b hb
        simp only [List.mem_cons] at hb
        rcases hb with hb | hb
        · omega
        · exact hrec.2 b hb

/-- C1: for every `total ≥ 0` and `period > 0`, with any timer, the batch
sequence of `const_time_partition(total, period)` is finite (it is a list),
every yielded batch size is at least 1, and the batch sizes sum exactly to
`total`; `total = 0` yields the empty sequence and `total = 1` yields `[1]`. -/
theorem const_time_partition_partitions (total : ℕ) (period : ℚ) (timer : ℕ → ℚ)
    (hp : 0 < period) :
    (const_time_partition total period timer).sum = total ∧
    (∀ b ∈ const_time_partition total period timer, 1 ≤ b) ∧
    (total = 0 → const_time_partition total period timer = []) ∧
    (total = 1 → const_time_partition total period timer = [1]) := by
  by_cases h0 : total = 0
  · subst h0
    simp [const_time_partition, ctpGo]
  · have h := ctpGo_sum_pos total period timer (timer 0) total 1 1
      (fun _ => le_refl 1) (by omega)
    refine ⟨h.1, h.2, fun h1 => absurd h1 h0, fun h1 => ?_⟩
    subst h1
    simp [const_time_partition, ctpGo]

/-- Witness for C1 at `total = 5`, `period = 1`, constant timer. -/
theorem const_time_partition_partitions_witness :
    (0:ℚ) < 1 ∧
    ((const_time_partition 5 1 (fun _ => 0)).sum = 5 ∧
     (∀ b ∈ const_time_partition 5 1 (fun _ => 0), 1 ≤ b) ∧
     ((5:ℕ) = 0 → const_time_partition 5 1 (fun _ => 0) = []) ∧
     ((5:ℕ) = 1 → const_time_partition 5 1 (fun _ => 0) = [1])) :=
  ⟨by norm_num, const_time_partition_partitions 5 1 (fun _ => 0) (by norm_num)⟩

/-- The two clamping orders agree: clamping a raw integer first into `[1, ∞)`
then into `(-∞, L]` (as the code does) equals clamping into `[1, L]` as the
spec words it, whenever `1 ≤ L`. -/
theorem clamp_min_max_comm (L : ℕ) (r : ℤ) (hL : 1 ≤ L) :
    min L (max 1 r.toNat) = (max 1 (min (L : ℤ) r)).toNat := by
  omega

/-- Truncation toward zero agrees with floor after clamping into `[1, L]`. -/
theorem clamp_pyInt_floor (L : ℕ) (x : ℚ) (hL : 1 ≤ L) :
    min L (max 1 (pyInt x).toNat) = (max 1 (min (L : ℤ) ⌊x⌋)).toNat := by
  unfold pyInt
  split
  · rename_i hx
    have hc : ⌈x⌉ ≤ (0 : ℤ) := Int.ceil_le.mpr (by exact_mod_cast hx.le)
    have hf : ⌊x⌋ ≤ ⌈x⌉ := Int.floor_le_ceil x
    omega
  · exact clamp_min_max_comm L ⌊x⌋ hL

/-- C6: the partitioner's batch-size recurrence. The first batch is 1; after
each batch, with `elapsed = timer() - start` and `done` the iterations
completed so far, the next batch is `⌊period * done / elapsed⌋` when
`elapsed > 0` and `2 * previous` when it is not, clamped into
`[1, iterations_remaining]`. -/
theorem ctpGo_batch_recurrence (it : ℕ) (p : ℚ) (t : ℕ → ℚ) (s : ℚ)
    (left next k : ℕ) (hl : 0 < left) :
    (0 < it → (const_time_partition it p t).head? = some 1) ∧
    ctpGo it p t s left next k =
      next :: ctpGo it p t s (left - next)
        ((max 1 (min ((left - next : ℕ) : ℤ)
           (if 0 < t k - s then ⌊p * ((it - (left - next) : ℕ) : ℚ) / (t k - s)⌋
            else 2 * next))).toNat)
        (k + 1) := by
  constructor
  · intro hit
    unfold const_time_partition
    rw [ctpGo]
    split
    · omega
    · rfl
  · rw [ctpGo]
    split
    · omega
    · by_cases hz : left - next = 0
      · rw [hz]
        refine congrArg _ ?_
        rw [ctpGo, ctpGo]
        simp
      · refine congrArg _ ?_
        congr 1
        by_cases he : 0 < t k - s
        · rw [if_pos he, if_pos he]
          exact clamp_pyInt_floor _ _ (by omega)
        · rw [if_neg he, if_neg he]
          exact clamp_min_max_comm _ _ (by omega)

/-- Witness for C6 at concrete loop state. -/
theorem ctpGo_batch_recurrence_witness :
    0 < 5 ∧
    ((0 < 5 → (const_time_partition 5 1 (fun _ => 0)).head? = some 1) ∧
     ctpGo 5 1 (fun _ => 0) 0 5 1 1 =
       1 :: ctpGo 5 1 (fun _ => 0) 0 (5 - 1)
         ((max 1 (min ((5 - 1 : ℕ) : ℤ)
            (if 0 < (fun _ : ℕ => (0:ℚ)) 1 - 0 then
               ⌊(1:ℚ) * ((5 - (5 - 1) : ℕ) : ℚ) / ((fun _ : ℕ => (0:ℚ)) 1 - 0)⌋
             else 2 * 1))).toNat)
         (1 + 1)) :=
  ⟨by decide, ctpGo_batch_recurrence 5 1 (fun _ => 0) 0 5 1 1 (by decide)⟩

/-- `any id` after mapping a predicate is `any` of the predicate. -/
theorem any_id_map {α : Type} (l : List α) (f : α → Bool) :
    (l.map f).any id = l.any f := by
  induction l with
  | nil => rfl
  | cons a t ih => simp [List.any_cons, ih]

/-- All elements of a list are `false` when `any id` is `false`. -/
theorem getD_false_of_any_false (m : List Bool) (hm : m.any id = false) (i : ℕ) :
    m.getD i false = false := by
  by_cases hi : i < m.length
  · rw [List.getD_eq_getElem _ _ hi]
    have := List.any_eq_false.mp hm _ (List.getElem_mem hi)
    simpa using this
  · rw [List.getD_eq_default]
    omega

/-- Per-entry round trip of the marshaller: provided no unmasked value equals
the sentinel, decoding an encoded value has the same size, recovers the mask
positions exactly, and keeps every unmasked value. -/
theorem decode_encode_val (v : PyVal) (hwf : v.wf)
    (hna : ∀ i, i < v.size → v.maskAt i = false → v.dataAt i ≠ JAGS_NA) :
    (decodeVal (encodeVal v)).size = v.size ∧
    (∀ i, (decodeVal (encodeVal v)).maskAt i = v.maskAt i) ∧
    (∀ i, i < v.size → v.maskAt i = false →
      (decodeVal (encodeVal v)).dataAt i = v.dataAt i) := by
  cases v with
  | arr d =>
    have henc : encodeVal (.arr d) = .arr d := by
      simp [encodeVal, PyVal.is_masked]
    have hall : (d.map (fun x => decide (x = JAGS_NA))).any id = false := by
      rw [any_id_map, List.any_eq_false]
      intro x hx
      obtain ⟨i, hi, rfl⟩ := List.mem_iff_getElem.mp hx
      have hne := hna i hi rfl
      rw [PyVal.dataAt] at hne
      simp only [PyVal.dataOf] at hne
      rw [List.getD_eq_getElem _ _ hi] at hne
      simpa using hne
    have hdec : decodeVal (.arr d) = .arr d := by
      rw [decodeVal]
      simp only [PyVal.dataOf, hall]
      rfl
    rw [henc, hdec]
    exact ⟨rfl, fun _ => rfl, fun _ _ _ => rfl⟩
  | marr d m =>
    have hwf' : m.length = d.length := hwf
    by_cases hm : m.any id = true
    · -- encode fills the masked positions, decode recovers the mask
      have henc : encodeVal (.marr d m) = .arr (PyVal.filled (.marr d m)) := by
        simp [encodeVal, PyVal.is_masked, hm]
      set F := PyVal.filled (.marr d m) with hF
      have hFlen : F.length = d.length := by
        simp [hF, PyVal.filled, List.length_zip, hwf']
      have hFat : ∀ i, (hi : i < d.length) →
          F[i] = if m[i] then JAGS_NA else d[i] := by
        intro i hi
        simp only [hF, PyVal.filled]
        rw [List.getElem_map, List.getElem_zip]
      have hmaskat : ∀ i, (hi : i < d.length) →
          (him : i < (F.map (fun x => decide (x = JAGS_NA))).length) →
          (F.map (fun x => decide (x = JAGS_NA)))[i] = m[i] := by
        intro i hi him
        rw [List.getElem_map, hFat i hi]
        by_cases hmi : m[i] = true
        · simp [hmi]
        · simp only [Bool.not_eq_true] at hmi
          have hne := hna i hi (by
            simp only [PyVal.maskAt]
            rw [List.getD_eq_getElem _ _ (by omega)]
            exact hmi)
          rw [PyVal.dataAt] at hne
          simp only [PyVal.dataOf] at hne
          rw [List.getD_eq_getElem _ _ hi] at hne
          simp [hmi, hne]
      have hanyF : (F.map (fun x => decide (x = JAGS_NA))).any id = true := by
        obtain ⟨b, hb, hbt⟩ := List.any_eq_true.mp hm
        obtain ⟨j, hj, rfl⟩ := List.mem_iff_getElem.mp hb
        have hjm : j < (F.map (fun x => decide (x = JAGS_NA))).length := by
          simp [hFlen]
          omega
        rw [List.any_eq_true]
        refine ⟨(F.map (fun x => decide (x = JAGS_NA)))[j],
          List.getElem_mem _, ?_⟩
        rw [hmaskat j (by omega) hjm]
        simpa using hbt
      have hdec : decodeVal (.arr F) =
          .marr F (F.map (fun x => decide (x = JAGS_NA))) := by
        rw [decodeVal]
        simp only [PyVal.dataOf, hanyF]
        rfl
      rw [henc, hdec]
      refine ⟨by simp [PyVal.size, hFlen], ?_, ?_⟩
      · intro i
        simp only [PyVal.maskAt]
        by_cases hi : i < d.length
        · rw [List.getD_eq_getElem _ _ (by simp [hFlen]; omega),
            List.getD_eq_getElem _ _ (by omega)]
          exact hmaskat i hi (by simp [hFlen]; omega)
        · rw [List.getD_eq_default, List.getD_eq_default]
          · omega
          · simp [hFlen]; omega
      · intro i hi hmaski
        simp only [PyVal.size] at hi
        simp only [PyVal.maskAt] at hmaski
        rw [List.getD_eq_getElem _ _ (by omega)] at hmaski
        simp only [PyVal.dataAt, PyVal.dataOf]
        rw [List.getD_eq_getElem _ _ (by omega), List.getD_eq_getElem _ _ hi,
          hFat i hi, hmaski]
        simp
    · -- nothing is actually masked: encode keeps the value, decode returns it
      have hm' : m.any id = false := by simpa using hm
      have henc : encodeVal (.marr d m) = .marr d m := by
        simp [encodeVal, PyVal.is_masked, hm']
      have hall : (d.map (fun x => decide (x = JAGS_NA))).any id = false := by
        rw [any_id_map, List.any_eq_false]
        intro x hx
        obtain ⟨i, hi, rfl⟩ := List.mem_iff_getElem.mp hx
        have hne := hna i hi (by
          simp only [PyVal.maskAt]
          exact getD_false_of_any_false m hm' i)
        rw [PyVal.dataAt] at hne
        simp only [PyVal.dataOf] at hne
        rw [List.getD_eq_getElem _ _ hi] at hne
        simpa using hne
      have hdec : decodeVal (.marr d m) = .marr d m := by
        rw [decodeVal]
        simp only [PyVal.dataOf, hall]
        rfl
      rw [henc, hdec]
      exact ⟨rfl, fun _ => rfl, fun _ _ _ => rfl⟩

/-- Encoding preserves the size of a well-formed value. -/
theorem size_encodeVal (v : PyVal) (hwf : v.wf) : (encodeVal v).size = v.size := by
  cases v with
  | arr d => simp [encodeVal, PyVal.is_masked]
  | marr d m =>
    have hwf' : m.length = d.length := hwf
    by_cases hm : m.any id = true
    · simp [encodeVal, PyVal.is_masked, hm, PyVal.size, PyVal.filled,
        List.length_zip, hwf']
    · simp only [Bool.not_eq_true] at hm
      simp [encodeVal, PyVal.is_masked, hm]

/-- C5 (amended): decode∘encode reconstructs the mask positions and the
unmasked values exactly for every well-formed input in which no unmasked
value equals the reserved sentinel; encoding drops exactly the entries whose
array is empty; decoding flags exactly the positions equal to `JAGS_NA`
under exact equality and returns a plain array when no element matches. -/
theorem dict_jags_roundtrip (src : List (String × PyVal))
    (hwf : ∀ kv ∈ src, kv.2.wf)
    (hna : ∀ kv ∈ src, ∀ i, i < kv.2.size → kv.2.maskAt i = false →
      kv.2.dataAt i ≠ JAGS_NA) :
    List.Forall₂ RoundTripRel
      (src.filter (fun kv => kv.2.size != 0))
      (dict_from_jags (dict_to_jags src)) ∧
    (∀ kv ∈ dict_to_jags src, kv.2.size ≠ 0) ∧
    (∀ dl : List ℚ,
      ((∃ x ∈ dl, x = JAGS_NA) →
        decodeVal (.arr dl) = .marr dl (dl.map (fun x => decide (x = JAGS_NA)))) ∧
      ((∀ x ∈ dl, x ≠ JAGS_NA) → decodeVal (.arr dl) = .arr dl)) := by
  refine ⟨?_, ?_, ?_⟩
  · induction src with
    | nil => simp [dict_to_jags, dict_from_jags]
    | cons kv t ih =>
      have hwf0 : kv.2.wf := hwf kv (by simp)
      have hna0 := hna kv (by simp)
      have hwf' : ∀ x ∈ t, x.2.wf := fun x hx => hwf x (by simp [hx])
      have hna' : ∀ x ∈ t, ∀ i, i < x.2.size → x.2.maskAt i = false →
          x.2.dataAt i ≠ JAGS_NA := fun x hx => hna x (by simp [hx])
      have hsz := size_encodeVal kv.2 hwf0
      simp only [dict_to_jags, List.filterMap_cons]
      by_cases h0 : kv.2.size = 0
      · rw [if_pos (by omega)]
        simp only [List.filter_cons]
        rw [if_neg (by simp [h0])]
        exact ih hwf' hna'
      · rw [if_neg (by omega)]
        simp only [List.filter_cons]
        rw [if_pos (by simp [h0])]
        simp only [dict_from_jags, List.map_cons]
        refine List.Forall₂.cons ?_ (ih hwf' hna')
        have h := decode_encode_val kv.2 hwf0 hna0
        exact ⟨rfl, h.1, h.2.1, h.2.2⟩
  · intro kv hkv
    simp only [dict_to_jags, List.mem_filterMap] at hkv
    obtain ⟨a, ha, hfa⟩ := hkv
    by_cases h0 : (encodeVal a.2).size = 0
    · rw [if_pos h0] at hfa
      exact absurd hfa (by simp)
    · rw [if_neg h0] at hfa
      have := size_encodeVal a.2 (hwf a ha)
      cases hfa
      simp only []
      omega
  · intro dl
    constructor
    · intro ⟨x, hx, hxe⟩
      have hany : (dl.map (fun x => decide (x = JAGS_NA))).any id = true := by
        rw [any_id_map, List.any_eq_true]
        exact ⟨x, hx, by simpa using hxe⟩
      rw [decodeVal]
      simp only [PyVal.dataOf, hany]
      rfl
    · intro hnone
      have hany : (dl.map (fun x => decide (x = JAGS_NA))).any id = false := by
        rw [any_id_map, List.any_eq_false]
        intro x hx
        simpa using hnone x hx
      rw [decodeVal]
      simp only [PyVal.dataOf, hany]
      rfl

/-- Counterexample to C5 as stated: an input with designated missing
positions whose unmasked first value happens to equal the sentinel; the
decoded mask flags position 0 although it was not masked in the input. -/
theorem dict_jags_roundtrip_cex :
    dict_from_jags (dict_to_jags [("x", PyVal.marr [JAGS_NA, 0] [false, true])]) =
      [("x", PyVal.marr [JAGS_NA, JAGS_NA] [true, true])] ∧
    (PyVal.marr [JAGS_NA, 0] [false, true]).maskAt 0 = false ∧
    (PyVal.marr [JAGS_NA, JAGS_NA] [true, true]).maskAt 0 = true := by
  refine ⟨?_, rfl, rfl⟩
  have h1 : encodeVal (.marr [JAGS_NA, 0] [false, true]) = .arr [JAGS_NA, JAGS_NA] := by
    norm_num [encodeVal, PyVal.is_masked, PyVal.filled]
  have h2 : decodeVal (.arr [JAGS_NA, JAGS_NA]) = .marr [JAGS_NA, JAGS_NA] [true, true] := by
    norm_num [decodeVal, PyVal.dataOf]
  simp [dict_to_jags, dict_from_jags, h1, h2, PyVal.size]

/-- Witness for C5 (amended) at a concrete one-entry dictionary. -/
theorem dict_jags_roundtrip_witness :
    (∀ kv ∈ ([("y", PyVal.arr [1])] : List (String × PyVal)), kv.2.wf) ∧
    (∀ kv ∈ ([("y", PyVal.arr [1])] : List (String × PyVal)),
      ∀ i, i < kv.2.size → kv.2.maskAt i = false → kv.2.dataAt i ≠ JAGS_NA) ∧
    (List.Forall₂ RoundTripRel
      (([("y", PyVal.arr [1])] : List (String × PyVal)).filter
        (fun kv => kv.2.size != 0))
      (dict_from_jags (dict_to_jags [("y", PyVal.arr [1])])) ∧
    (∀ kv ∈ dict_to_jags [("y", PyVal.arr [1])], kv.2.size ≠ 0) ∧
    (∀ dl : List ℚ,
      ((∃ x ∈ dl, x = JAGS_NA) →
        decodeVal (.arr dl) = .marr dl (dl.map (fun x => decide (x = JAGS_NA)))) ∧
      ((∀ x ∈ dl, x ≠ JAGS_NA) → decodeVal (.arr dl) = .arr dl))) := by
  have hwf : ∀ kv ∈ ([("y", PyVal.arr [1])] : List (String × PyVal)), kv.2.wf := by
    intro kv hkv
    simp only [List.mem_singleton] at hkv
    subst hkv
    trivial
  have hna : ∀ kv ∈ ([("y", PyVal.arr [1])] : List (String × PyVal)),
      ∀ i, i < kv.2.size → kv.2.maskAt i = false → kv.2.dataAt i ≠ JAGS_NA := by
    intro kv hkv i hi _
    simp only [List.mem_singleton] at hkv
    subst hkv
    have h0 : i = 0 := by
      simp [PyVal.size] at hi
      omega
    subst h0
    norm_num [PyVal.dataAt, PyVal.dataOf, JAGS_NA]
  exact ⟨hwf, hna, dict_jags_roundtrip [("y", PyVal.arr [1])] hwf hna⟩

/-- Counterexample to C4 as stated: supplying both a path source and an
inline source does not raise ValueError; the path silently wins. -/
theorem model_path_both_cex :
    model_path (some "model.bug") (some "model { }") = .ok (.fromFile "model.bug") ∧
    model_path (some "model.bug") (some "model { }") ≠ .error .valueError := by
  refine ⟨rfl, fun h => ?_⟩
  rw [show model_path (some "model.bug") (some "model { }")
        = .ok (.fromFile "model.bug") from rfl] at h
  exact Except.noConfusion h

/-- C4 (amended): `model_path` raises ValueError exactly when neither source
is supplied (truthy); when a path source is supplied it is used, even if an
inline source is also supplied (the path takes precedence, no error). -/
theorem model_path_exactly_one (file code : Option String) :
    (model_path file code = .error .valueError ↔
      pyTruthyStr file = false ∧ pyTruthyStr code = false) ∧
    (pyTruthyStr file = true →
      model_path file code = .ok (.fromFile (file.getD ""))) := by
  constructor
  · constructor
    · intro h
      by_cases hf : pyTruthyStr file
      · simp [model_path, hf] at h
      · by_cases hc : pyTruthyStr code
        · simp [model_path, hf, hc] at h
        · simp_all
    · intro ⟨hf, hc⟩
      simp [model_path, hf, hc]
  · intro hf
    simp [model_path, hf]

/-- Witness for C4 (amended) with a path source present. -/
theorem model_path_exactly_one_witness :
    ((model_path (some "m.bug") none = .error .valueError ↔
      pyTruthyStr (some "m.bug") = false ∧ pyTruthyStr none = false) ∧
     (pyTruthyStr (some "m.bug") = true →
      model_path (some "m.bug") none = .ok (.fromFile ((some "m.bug").getD "")))) ∧
    pyTruthyStr (some "m.bug") = true ∧
    model_path (some "m.bug") none = .ok (.fromFile "m.bug") :=
  ⟨model_path_exactly_one (some "m.bug") none, by decide,
   (model_path_exactly_one (some "m.bug") none).2 (by decide)⟩

/-- Lookup in the association-list block created for one console: keys are
`outer..outer+cc-1`, values `(cIdx, base..base+cc-1)` in step. -/
theorem lookup_range_block (cc : ℕ) : ∀ (outer base cIdx c : ℕ),
    ((List.range cc).map (fun i => (outer + i, cIdx, base + i))).lookup c =
      (if outer ≤ c ∧ c < outer + cc then some (cIdx, base + (c - outer)) else none) := by
  induction cc with
  | zero =>
    intro outer base cIdx c
    rw [if_neg (by omega)]
    simp
  | succ n ih =>
    intro outer base cIdx c
    rw [List.range_succ_eq_map, List.map_cons, List.map_map]
    have hcomp : ((fun i => (outer + i, cIdx, base + i)) ∘ Nat.succ)
        = (fun i => ((outer + 1) + i, cIdx, (base + 1) + i)) := by
      funext i
      simp only [Function.comp_apply, Prod.mk.injEq]
      exact ⟨by omega, trivial, by omega⟩
    rw [hcomp]
    by_cases hco : c = outer
    · subst hco
      rw [if_pos ⟨le_refl c, by omega⟩]
      simp [List.lookup]
    · have hbeq : (c == outer + 0) = false := by
        simp
        omega
      simp only [List.lookup, hbeq]
      rw [ih (outer + 1) (base + 1) cIdx c]
      by_cases hin : outer + 1 ≤ c ∧ c < outer + 1 + n
      · rw [if_pos hin, if_pos (by omega)]
        have : base + 1 + (c - (outer + 1)) = base + (c - outer) := by omega
        rw [this]
      · rw [if_neg hin, if_neg (by omega)]

/-- Characterization of the routing dict: outer chain `c` is a key iff
`outer ≤ c < outer + chains`, and it maps to console `cIdx + (c-outer)/cpt`
with inner chain `(c-outer) % cpt + 1`. -/
theorem buildRouting_lookup (cpt : ℕ) (hcpt : 1 ≤ cpt) : ∀ chains, ∀ cIdx outer c,
    (buildRouting cpt chains cIdx outer).lookup c =
      (if outer ≤ c ∧ c < outer + chains
       then some (cIdx + (c - outer) / cpt, (c - outer) % cpt + 1)
       else none) := by
  intro chains
  induction chains using Nat.strong_induction_on with
  | _ chains ih =>
    intro cIdx outer c
    rw [buildRouting]
    split
    · rename_i h0
      rw [if_neg (by omega)]
      simp
    · rename_i h0
      split
      · omega
      · rename_i hc0
        have hbase : (fun i => (outer + i, cIdx, i + 1))
            = (fun i => (outer + i, cIdx, 1 + i)) := by
          funext i
          simp only [Prod.mk.injEq]
          exact ⟨trivial, trivial, by omega⟩
        rw [List.lookup_append, hbase, lookup_range_block]
        by_cases hblock : outer ≤ c ∧ c < outer + min cpt chains
        · rw [if_pos hblock]
          simp only [Option.or]
          rw [if_pos (by omega)]
          have hd : (c - outer) / cpt = 0 := Nat.div_eq_of_lt (by omega)
          have hm : (c - outer) % cpt = c - outer := Nat.mod_eq_of_lt (by omega)
          rw [hd, hm]
          simp only [Nat.add_zero, Option.some.injEq, Prod.mk.injEq]
          exact ⟨trivial, by omega⟩
        · rw [if_neg hblock]
          simp only [Option.or]
          rw [ih (chains - cpt) (by omega) (cIdx + 1) (outer + min cpt chains) c]
          by_cases hrest : outer + min cpt chains ≤ c ∧
              c < outer + min cpt chains + (chains - cpt)
          · rw [if_pos hrest, if_pos (by omega)]
            have hmin : min cpt chains = cpt := by
              rcases Nat.le_total cpt chains with h | h
              · exact Nat.min_eq_left h
              · omega
            rw [hmin] at hrest ⊢
            have hx : c - outer = (c - (outer + cpt)) + cpt := by omega
            rw [hx, Nat.add_div_right _ (by omega), Nat.add_mod_right]
            simp only [Option.some.injEq, Prod.mk.injEq]
            exact ⟨by omega, trivial⟩
          · rw [if_neg hrest]
            rcases Nat.le_total cpt chains with h | h
            · rw [if_neg (by rw [Nat.min_eq_left h] at hblock hrest; omega)]
            · rw [if_neg (by rw [Nat.min_eq_right h] at hblock hrest; omega)]

/-- The construction loop creates `⌈chains / cpt⌉` consoles. -/
theorem buildConsoles_length (cpt : ℕ) (hcpt : 1 ≤ cpt) : ∀ chains,
    (buildConsoles cpt chains).length = (chains + cpt - 1) / cpt := by
  intro chains
  induction chains using Nat.strong_induction_on with
  | _ chains ih =>
    rw [buildConsoles]
    split
    · rename_i h0
      rw [h0, Nat.div_eq_of_lt (show 0 + cpt - 1 < cpt by omega)]
      simp
    · split
      · omega
      · rename_i h0 hc0
        simp only [List.length_cons]
        rw [ih (chains - cpt) (by omega)]
        by_cases h : chains ≤ cpt
        · have h1 : chains - cpt = 0 := by omega
          rw [h1]
          rw [Nat.div_eq_of_lt (show 0 + cpt - 1 < cpt by omega)]
          have h2 : chains + cpt - 1 = (chains - 1) + cpt := by omega
          rw [h2, Nat.add_div_right _ (by omega),
            Nat.div_eq_of_lt (show chains - 1 < cpt by omega)]
        · have h1 : chains - cpt + cpt - 1 = (chains - 1 - cpt) + cpt := by omega
          have h2 : chains + cpt - 1 = ((chains - 1 - cpt) + cpt) + cpt := by omega
          rw [h1, h2, Nat.add_div_right _ (by omega), Nat.add_div_right _ (by omega),
            Nat.add_div_right _ (by omega)]

/-- Shard sizes: console `i` owns `min cpt (chains - i*cpt)` chains (the
last console possibly partial). -/
theorem buildConsoles_get (cpt : ℕ) (hcpt : 1 ≤ cpt) : ∀ chains i,
    (buildConsoles cpt chains).get? i =
      (if i * cpt < chains then some (min cpt (chains - i * cpt)) else none) := by
  intro chains
  induction chains using Nat.strong_induction_on with
  | _ chains ih =>
    intro i
    rw [buildConsoles]
    split
    · rename_i h0
      rw [if_neg (by omega)]
      simp
    · split
      · omega
      · rename_i h0 hc0
        cases i with
        | zero =>
          rw [if_pos (by omega)]
          simp
        | succ j =>
          simp only [List.get?]
          rw [ih (chains - cpt) (by omega) j, Nat.succ_mul]
          by_cases hin : j * cpt < chains - cpt
          · rw [if_pos hin, if_pos (by omega)]
            congr 1
            omega
          · rw [if_neg hin, if_neg (by omega)]

/-- `i` indexes a console exactly when `i * cpt < total`. -/
theorem lt_ceilDiv_iff (total cpt i : ℕ) (hcpt : 1 ≤ cpt) :
    i < (total + cpt - 1) / cpt ↔ i * cpt < total := by
  constructor
  · intro h
    have h2 := (Nat.le_div_iff_mul_le (show 0 < cpt by omega)).mp h
    rw [Nat.succ_mul] at h2
    omega
  · intro h
    have h2 : (i + 1) * cpt ≤ total + cpt - 1 := by
      rw [Nat.succ_mul]
      omega
    exact (Nat.le_div_iff_mul_le (show 0 < cpt by omega)).mpr h2

/-- C3: constructing the router with `total_chains ≥ 1` and
`chains_per_instance ≥ 1` creates `⌈total/cpt⌉` instances with shard sizes
`min cpt (total - i*cpt)` (the last possibly partial); the routing table is
keyed by exactly the chain ids `1..total`, each mapping to the single pair
`((c-1)/cpt, (c-1)%cpt+1)`; per instance the local ids form the contiguous
range `1..shard_size`; concretely 7 chains with `cpt = 2` give shard sizes
`[2, 2, 2, 1]` and chain 7 maps to the 4th instance's local chain 1. -/
theorem multiConsole_routing_invariant (total cpt : ℕ) (ht : 1 ≤ total)
    (hcpt : 1 ≤ cpt) :
    ((MultiConsole.init total cpt).chains_per_console.length =
      (total + cpt - 1) / cpt) ∧
    (∀ i, (MultiConsole.init total cpt).chains_per_console.get? i =
      (if i * cpt < total then some (min cpt (total - i * cpt)) else none)) ∧
    (∀ c, (1 ≤ c ∧ c ≤ total) ↔
      ((MultiConsole.init total cpt).chains.lookup c).isSome = true) ∧
    (∀ c v, (MultiConsole.init total cpt).chains.lookup c = some v →
      v = ((c - 1) / cpt, (c - 1) % cpt + 1)) ∧
    (∀ i l, (∃ c, (MultiConsole.init total cpt).chains.lookup c = some (i, l)) ↔
      (i < (total + cpt - 1) / cpt ∧ 1 ≤ l ∧ l ≤ min cpt (total - i * cpt))) ∧
    ((MultiConsole.init 7 2).chains_per_console = [2, 2, 2, 1] ∧
     (MultiConsole.init 7 2).chains.lookup 7 = some (3, 1)) := by
  have hchar : ∀ c, (MultiConsole.init total cpt).chains.lookup c =
      (if 1 ≤ c ∧ c < 1 + total
       then some ((c - 1) / cpt, (c - 1) % cpt + 1)
       else none) := by
    intro c
    rw [MultiConsole.init]
    rw [buildRouting_lookup cpt hcpt total 0 1 c]
    by_cases hc : 1 ≤ c ∧ c < 1 + total
    · rw [if_pos hc, if_pos hc]
      simp only [Nat.zero_add]
    · rw [if_neg hc, if_neg hc]
  refine ⟨?_, ?_, ?_, ?_, ?_, ?_, ?_⟩
  · rw [MultiConsole.init]
    exact buildConsoles_length cpt hcpt total
  · intro i
    rw [MultiConsole.init]
    exact buildConsoles_get cpt hcpt total i
  · intro c
    rw [hchar c]
    constructor
    · intro hc
      rw [if_pos (by omega)]
      rfl
    · intro hc
      by_cases h : 1 ≤ c ∧ c < 1 + total
      · omega
      · rw [if_neg h] at hc
        simp at hc
  · intro c v hv
    rw [hchar c] at hv
    by_cases h : 1 ≤ c ∧ c < 1 + total
    · rw [if_pos h] at hv
      exact ((Option.some.injEq _ _).mp hv.symm)
    · rw [if_neg h] at hv
      exact absurd hv (by simp)
  · intro i l
    constructor
    · intro ⟨c, hc⟩
      rw [hchar c] at hc
      by_cases h : 1 ≤ c ∧ c < 1 + total
      · rw [if_pos h] at hc
        have hij := (Option.some.injEq _ _).mp hc
        have hi : i = (c - 1) / cpt := ((Prod.mk.injEq _ _ _ _ |>.mp hij).1).symm
        have hl : l = (c - 1) % cpt + 1 := ((Prod.mk.injEq _ _ _ _ |>.mp hij).2).symm
        have hkey := Nat.div_add_mod (c - 1) cpt
        have hmod : (c - 1) % cpt < cpt := Nat.mod_lt _ (by omega)
        have hdm : (c - 1) / cpt * cpt ≤ c - 1 := Nat.div_mul_le_self _ _
        refine ⟨?_, by omega, ?_⟩
        · rw [lt_ceilDiv_iff total cpt i hcpt, hi]
          omega
        · rw [hi, hl]
          have hco : (c - 1) / cpt * cpt = cpt * ((c - 1) / cpt) :=
            Nat.mul_comm _ _
          rw [hco]
          omega
      · rw [if_neg h] at hc
        exact absurd hc (by simp)
    · intro ⟨hi, hl1, hl2⟩
      refine ⟨i * cpt + l, ?_⟩
      rw [hchar (i * cpt + l)]
      have hicpt : i * cpt < total := (lt_ceilDiv_iff total cpt i hcpt).mp hi
      have hltot : l ≤ total - i * cpt := le_trans hl2 (min_le_right _ _)
      have hlcpt : l ≤ cpt := le_trans hl2 (min_le_left _ _)
      rw [if_pos (by constructor <;> omega)]
      have hc1 : i * cpt + l - 1 = (l - 1) + cpt * i := by
        have : i * cpt = cpt * i := Nat.mul_comm _ _
        omega
      rw [hc1, Nat.add_mul_div_left _ _ (show 0 < cpt by omega),
        Nat.add_mul_mod_self_left (l - 1) cpt i,
        Nat.div_eq_of_lt (show l - 1 < cpt by omega),
        Nat.mod_eq_of_lt (show l - 1 < cpt by omega)]
      simp only [Option.some.injEq, Prod.mk.injEq]
      exact ⟨by omega, by omega⟩
  · simp [MultiConsole.init, buildConsoles]
  · simp [MultiConsole.init, buildRouting, List.range_succ, List.lookup]

/-- Witness for C3 at `total = 7`, `cpt = 2`: 4 instances. -/
theorem multiConsole_routing_invariant_witness :
    1 ≤ 7 ∧ 1 ≤ 2 ∧
    (MultiConsole.init 7 2).chains_per_console.length = (7 + 2 - 1) / 2 :=
  ⟨by decide, by decide, (multiConsole_routing_invariant 7 2 (by decide) (by decide)).1⟩

/-- Counterexample to C9 as stated: routing chain 8 on a 7-chain router
fails, but with a KeyError (dict lookup), which is not an IndexError-class
exception in Python (both are LookupError subclasses). -/
theorem multiConsole_route_cex :
    (MultiConsole.init 7 2).route 8 = .error .keyError ∧
    PyExc.keyError.isIndexErrorClass = false ∧
    PyExc.keyError.isLookupErrorClass = true := by
  refine ⟨?_, rfl, rfl⟩
  simp [MultiConsole.route, MultiConsole.init, buildRouting, List.range_succ,
    List.lookup]

/-- C9 (amended): for every `chain_id` outside `1..total_chains` the routed
per-chain operations (`setRNGname`, `setParameters`, `dumpState`, which all
perform the dict lookup `self.chains[chain]`) fail with a KeyError — a
LookupError-class (not IndexError-class) exception — and for every
`chain_id` inside `1..total_chains` the lookup succeeds. -/
theorem multiConsole_route_bounds (total cpt c : ℕ) (hcpt : 1 ≤ cpt) :
    ((1 ≤ c ∧ c ≤ total) →
      (MultiConsole.init total cpt).route c =
        .ok ((c - 1) / cpt, (c - 1) % cpt + 1)) ∧
    (¬(1 ≤ c ∧ c ≤ total) →
      (MultiConsole.init total cpt).route c = .error .keyError ∧
      PyExc.keyError.isLookupErrorClass = true) := by
  have hchar : (MultiConsole.init total cpt).chains.lookup c =
      (if 1 ≤ c ∧ c < 1 + total
       then some ((c - 1) / cpt, (c - 1) % cpt + 1)
       else none) := by
    rw [MultiConsole.init, buildRouting_lookup cpt hcpt total 0 1 c]
    by_cases hc : 1 ≤ c ∧ c < 1 + total
    · rw [if_pos hc, if_pos hc]
      simp only [Nat.zero_add]
    · rw [if_neg hc, if_neg hc]
  constructor
  · intro hc
    rw [MultiConsole.route, hchar, if_pos (by omega)]
  · intro hc
    rw [MultiConsole.route, hchar, if_neg (by omega)]
    exact ⟨rfl, rfl⟩

/-- Witness for C9 (amended) at `total = 7`, `cpt = 2`, chains 3 and 9. -/
theorem multiConsole_route_bounds_witness :
    1 ≤ 2 ∧
    ((1 ≤ 3 ∧ 3 ≤ 7) →
      (MultiConsole.init 7 2).route 3 = .ok ((3 - 1) / 2, (3 - 1) % 2 + 1)) ∧
    (¬(1 ≤ 9 ∧ 9 ≤ 7) →
      (MultiConsole.init 7 2).route 9 = .error .keyError ∧
      PyExc.keyError.isLookupErrorClass = true) :=
  ⟨by decide, (multiConsole_route_bounds 7 2 3 (by decide)).1,
   (multiConsole_route_bounds 7 2 9 (by decide)).2⟩

/-- C7: whenever every per-instance dump contains the variable `k` (the
router invariant: all instances load the same model), the aggregated sample
for `k` is exactly the concatenation of the instances' tensors along the
chains axis in instance order — each instance's block kept contiguous and
in its own order, never reordered; and the routing table lists instances in
creation order (console indices are monotone in the chain id), so
instance order and routing-table order agree. -/
theorem dumpMonitors_concat (ds : List (List (String × Tensor)))
    (k : String) (ts : List Tensor)
    (hds : ds ≠ [])
    (hall : List.Forall₂ (fun d t => d.lookup k = some t) ds ts) :
    dumpMonitorsAt ds k = some (.ok ts.flatten) ∧
    (∀ total cpt c d qc rc qd rd, 1 ≤ cpt → c ≤ d →
      (MultiConsole.init total cpt).chains.lookup c = some (qc, rc) →
      (MultiConsole.init total cpt).chains.lookup d = some (qd, rd) →
      qc ≤ qd) := by
  constructor
  · have hlen := List.Forall₂.length_eq hall
    have hmem : ∀ i, (hi : i < ds.length) →
        (ds[i]).lookup k = some (ts[i]) := by
      intro i hi
      exact hall.get hi (by omega)
    have hne : ∃ d, d ∈ ds := by
      cases ds with
      | nil => exact absurd rfl hds
      | cons a l => exact ⟨a, by simp⟩
    obtain ⟨d0, hd0⟩ := hne
    have hany : ds.any (fun d => (d.lookup k).isSome) = true := by
      rw [List.any_eq_true]
      obtain ⟨i, hi, rfl⟩ := List.mem_iff_getElem.mp hd0
      exact ⟨ds[i], List.getElem_mem _, by rw [hmem i hi]; rfl⟩
    have hallb : ds.all (fun d => (d.lookup k).isSome) = true := by
      rw [List.all_eq_true]
      intro d hd
      obtain ⟨i, hi, rfl⟩ := List.mem_iff_getElem.mp hd
      rw [hmem i hi]
      rfl
    rw [dumpMonitorsAt, if_pos hany, if_pos hallb]
    have hmap : ds.map (fun d => (d.lookup k).getD []) = ts := by
      refine List.ext_getElem (by simp [hlen]) ?_
      intro i h1 h2
      rw [List.getElem_map, hmem i (by simpa using h1)]
      rfl
    rw [hmap]
  · intro total cpt c d qc rc qd rd hcpt hcd hc hd
    rw [MultiConsole.init, buildRouting_lookup cpt hcpt total 0 1] at hc hd
    by_cases h1 : 1 ≤ c ∧ c < 1 + total
    · rw [if_pos h1] at hc
      by_cases h2 : 1 ≤ d ∧ d < 1 + total
      · rw [if_pos h2] at hd
        have hc' := (Option.some.injEq _ _).mp hc.symm
        have hd' := (Option.some.injEq _ _).mp hd.symm
        have hqc : qc = 0 + (c - 1) / cpt := ((Prod.mk.injEq _ _ _ _).mp hc'.symm).1.symm
        have hqd : qd = 0 + (d - 1) / cpt := ((Prod.mk.injEq _ _ _ _).mp hd'.symm).1.symm
        rw [hqc, hqd]
        simp only [Nat.zero_add]
        exact Nat.div_le_div_right (by omega)
      · rw [if_neg h2] at hd
        exact absurd hd (by simp)
    · rw [if_neg h1] at hc
      exact absurd hc (by simp)

/-- Witness for C7 with two instances holding two chains and one chain. -/
theorem dumpMonitors_concat_witness :
    ([[("x", ([[1], [2]] : Tensor))], [("x", ([[3]] : Tensor))]] ≠
      ([] : List (List (String × Tensor)))) ∧
    List.Forall₂ (fun d t => d.lookup "x" = some t)
      [[("x", ([[1], [2]] : Tensor))], [("x", ([[3]] : Tensor))]]
      [([[1], [2]] : Tensor), ([[3]] : Tensor)] ∧
    dumpMonitorsAt [[("x", ([[1], [2]] : Tensor))], [("x", ([[3]] : Tensor))]] "x" =
      some (.ok ([[1], [2], [3]] : Tensor)) := by
  have h1 : ([[("x", ([[1], [2]] : Tensor))], [("x", ([[3]] : Tensor))]] ≠
      ([] : List (List (String × Tensor)))) := by simp
  have h2 : List.Forall₂ (fun d t => d.lookup "x" = some t)
      [[("x", ([[1], [2]] : Tensor))], [("x", ([[3]] : Tensor))]]
      [([[1], [2]] : Tensor), ([[3]] : Tensor)] := by
    refine List.Forall₂.cons ?_ (List.Forall₂.cons ?_ List.Forall₂.nil) <;> rfl
  have h3 := (dumpMonitors_concat _ "x" _ h1 h2).1
  exact ⟨h1, h2, by rw [h3]; rfl⟩

/-- The subscription loop only appends, and appends the same names to
`monitored` and to the console state. -/
theorem setMonitorLoop_shape (o : SampleOracle) : ∀ (vars acc st : List String),
    ∃ delta ok, setMonitorLoop o vars acc st = (acc ++ delta, st ++ delta, ok) := by
  intro vars
  induction vars with
  | nil =>
    intro acc st
    exact ⟨[], true, by simp [setMonitorLoop]⟩
  | cons n rest ih =>
    intro acc st
    by_cases hf : o.setMonitorFails n
    · exact ⟨[], false, by simp [setMonitorLoop, hf]⟩
    · obtain ⟨delta, ok, hd⟩ := ih (acc ++ [n]) (st ++ [n])
      refine ⟨n :: delta, ok, ?_⟩
      simp only [setMonitorLoop, hf, if_false, hd]
      simp

/-- `clearMonitors` viewed as a multiset operation (each `List.erase`
removes one copy). -/
theorem clearMonitors_coe (m : List String) : ∀ st : List String,
    ((clearMonitors m st : List String) : Multiset String) =
      m.foldl (fun s n => s.erase n) (st : Multiset String) := by
  induction m with
  | nil => intro st; rfl
  | cons n rest ih =>
    intro st
    show ((clearMonitors rest (st.erase n) : List String) : Multiset String) = _
    rw [ih (st.erase n)]
    simp only [List.foldl_cons]
    congr 1

/-- Erasing, in order, one copy of each element of `delta` from `s + delta`
returns `s`. -/
theorem fold_erase_add (delta : List String) : ∀ s : Multiset String,
    delta.foldl (fun t n => t.erase n) (s + (delta : Multiset String)) = s := by
  induction delta with
  | nil => intro s; simp
  | cons n rest ih =>
    intro s
    simp only [List.foldl_cons]
    have hstep : (s + ((n :: rest : List String) : Multiset String)).erase n
        = s + (rest : Multiset String) := by
      rw [← Multiset.cons_coe, Multiset.erase_add_right_pos s (Multiset.mem_cons_self n _)]
      rw [Multiset.erase_cons_head]
    rw [hstep]
    exact ih s

/-- C2: on every exit path of `Model.sample` — all monitors set, a later
`setMonitor` failing, the update batches failing, or the dump failing —
every monitor that was successfully set during the call is cleared again
before the call returns or propagates, so the console's subscription
multiset is exactly what it was before the call; with no prior monitors the
console ends with none, and a failing update still propagates its error. -/
theorem sample_clears_monitors (o : SampleOracle) (vars st : List String) :
    (((sampleRun o vars st).2 : List String) : Multiset String) =
      (st : Multiset String) ∧
    (sampleRun o vars []).2 = [] ∧
    sampleRun ⟨fun _ => false, true, false⟩ ["x", "y"] [] =
      (.error .runtimeError, []) := by
  have hmain : ∀ st' : List String,
      (((sampleRun o vars st').2 : List String) : Multiset String) =
        (st' : Multiset String) := by
    intro st'
    obtain ⟨delta, ok, hloop⟩ := setMonitorLoop_shape o vars [] st'
    rw [List.nil_append] at hloop
    have hstate : (sampleRun o vars st').2 = clearMonitors delta (st' ++ delta) := by
      rw [sampleRun, hloop]
      by_cases h1 : ok
      · by_cases h2 : o.updateFails
        · simp [h1, h2]
        · by_cases h3 : o.dumpFails
          · simp [h1, h2, h3]
          · simp [h1, h2, h3]
      · simp [h1]
    rw [hstate, clearMonitors_coe delta (st' ++ delta)]
    have : ((st' ++ delta : List String) : Multiset String) =
        (st' : Multiset String) + (delta : Multiset String) := by
      simp
    rw [this, fold_erase_add delta]
  refine ⟨hmain st, ?_, by rfl⟩
  have h0 := hmain []
  have : (((sampleRun o vars []).2 : List String) : Multiset String) = 0 := by
    simpa using h0
  exact (Multiset.coe_eq_zero _).mp this

/-- C8: a single mapping is broadcast to every chain (it behaves exactly
like a sequence of `chains` copies); a sequence whose length differs from
the chain count raises ValueError with an empty engine-call trace; a value
that is neither a mapping nor a sequence raises ValueError with an empty
trace; an omitted `init` is the empty mapping.  The empty traces show the
errors are raised before any engine parameter is set (and `_init_parameters`
starts no worker thread at all); a valid sequence proceeds to set the
parameters of chains 1..n in order. -/
theorem init_parameters_validation (chains : ℕ) (useThreads : Bool)
    (varNames : List String) (rngs : List (Option String × PyVal)) :
    (∀ m, init_parameters chains useThreads varNames rngs (.mapping m) =
      init_parameters chains useThreads varNames rngs
        (.sequence (List.replicate chains m))) ∧
    (∀ l, l.length ≠ chains →
      init_parameters chains useThreads varNames rngs (.sequence l) =
        ([], some .valueError)) ∧
    (init_parameters chains useThreads varNames rngs .other =
      ([], some .valueError)) ∧
    (init_parameters chains useThreads varNames rngs .noneArg =
      init_parameters chains useThreads varNames rngs (.mapping ⟨none, []⟩)) ∧
    (init_parameters 2 false ["a"] [] (.sequence [⟨none, []⟩, ⟨none, []⟩]) =
      ([EngineCall.setParams 1, EngineCall.setParams 2], none)) := by
  refine ⟨fun m => rfl, fun l hl => ?_, rfl, rfl, by decide⟩
  rw [init_parameters, initSeqRun, if_pos hl]

/-- Witness for C8 at 2 chains with a length-1 init sequence. -/
theorem init_parameters_validation_witness :
    (([⟨none, []⟩] : List InitMap).length ≠ 2) ∧
    init_parameters 2 false ["a"] [] (.sequence [⟨none, []⟩]) =
      ([], some .valueError) :=
  ⟨by decide,
   (init_parameters_validation 2 false ["a"] []).2.1 [⟨none, []⟩] (by decide)⟩

/-- C10: the sharded router and the parallel update path are engaged iff
`threads > 1` and `chains_per_thread < chains`; otherwise a single engine
instance owns all chains and updates run sequentially on the calling
thread.  In particular `threads = 4` with `chains_per_thread = 4 ≥ chains
= 4` silently yields single-instance sequential execution. -/
theorem use_threads_dispatch (threads chains cpt : ℕ) :
    (use_threads threads chains cpt = true ↔ (1 < threads ∧ cpt < chains)) ∧
    (use_threads threads chains cpt = true →
      consoleFor threads chains cpt = .multi (MultiConsole.init chains cpt) ∧
      updateMethodFor threads chains cpt = .parallel) ∧
    (use_threads threads chains cpt = false →
      consoleFor threads chains cpt = .single chains ∧
      updateMethodFor threads chains cpt = .sequential) ∧
    (use_threads 4 4 4 = false ∧ consoleFor 4 4 4 = .single 4 ∧
     updateMethodFor 4 4 4 = .sequential) := by
  refine ⟨?_, ?_, ?_, by decide, ?_, ?_⟩
  · simp [use_threads]
  · intro h
    constructor <;> simp [consoleFor, updateMethodFor, h]
  · intro h
    constructor <;> simp [consoleFor, updateMethodFor, h]
  · rw [show consoleFor 4 4 4 = .single 4 from rfl]
  · rw [show updateMethodFor 4 4 4 = .sequential from rfl]

/-- Witness for C10 at `threads = 4`, `chains = 4`, `chains_per_thread = 4`. -/
theorem use_threads_dispatch_witness :
    use_threads 4 4 4 = false ∧
    (consoleFor 4 4 4 = .single 4 ∧ updateMethodFor 4 4 4 = .sequential) :=
  ⟨by decide, (use_threads_dispatch 4 4 4).2.2.1 (by decide)⟩
